import Mathlib

/-!
Verification of the FTX fill-history collector (src/main.rs) against its
specification.

The embedding models the two core components of `main`:

* the Fill Cursor — the `futures::stream::unfold` pagination loop that walks
  the fill history backward through time using a `RequestCursor`
  (`end_time`, `oldest_fill_id`), filtering each fetched page by
  `f.id < oldest_fill_id` and by the optional start boundary, and deriving the
  next cursor from the *last* element of the filtered page; and
* the Partitioned Writer — the `fold` that routes each fill to a per-day CSV
  sink, opening a new sink (via `File::create`, which truncates an existing
  file) exactly when the fill's calendar date differs from the open sink's.

Timestamps are modelled as `Int` seconds (chrono `NaiveDateTime::timestamp`),
calendar dates as `Int` day numbers (days since the epoch), and fill ids as
`Nat` (`u64` in the source; the initial cursor id is `u64::MAX`).
The page fetcher (`get_fills`) is an external collaborator and is modelled as
an arbitrary function from the request cursor to a list of fills; the loop
always requests the window `[0, cursor.end_time)`.
-/

namespace FtxCollector

/-- One fill record. Only the fields the core algorithm inspects are kept:
`id` (`u64`, the deduplication key) and `time` (the fill's timestamp,
seconds, as returned by `f.time.naive_utc().timestamp()`). The remaining
payload fields (price, size, fee, ...) are opaque to the core. -/
structure FtxFill where
  id : Nat
  time : Int
deriving DecidableEq, Repr

/-- Pagination state of the fill cursor (src/main.rs `RequestCursor`):
`end_time` is the exclusive upper bound of the next page query,
`oldest_fill_id` the id every kept fill must be strictly below. -/
structure RequestCursor where
  end_time : Int
  oldest_fill_id : Nat
deriving DecidableEq, Repr

/-- `u64::MAX`, the initial `oldest_fill_id`. -/
def u64Max : Nat := 2 ^ 64 - 1

/-- The per-fill filter of the unfold body (src/main.rs lines 85-92):
`f.id < oldest_fill_id && start_time.map(|st| st <= f.time.naive_utc()).unwrap_or(true)`. -/
def keepFill (start_time : Option Int) (oldest_fill_id : Nat) (f : FtxFill) : Bool :=
  decide (f.id < oldest_fill_id) &&
    (start_time.map (fun st => decide (st ≤ f.time))).getD true

/-- The filtered page of one iteration: the fetched page with the
duplication filter and the start-boundary filter applied. -/
def filterPage (fetch : RequestCursor → List FtxFill) (start_time : Option Int)
    (c : RequestCursor) : List FtxFill :=
  (fetch c).filter (keepFill start_time c.oldest_fill_id)

/-- One iteration of the unfold body (src/main.rs lines 75-113): fetch the
page for the cursor, filter it, and — when the filtered page is non-empty —
emit it together with the next cursor derived from its last (oldest) element:
`end_time := oldest.time + 1 second`, `oldest_fill_id := oldest.id`.
Returns `none` exactly when the filtered page is empty (`fills.last()` is
`None`), which terminates the stream. -/
def pageStep (fetch : RequestCursor → List FtxFill) (start_time : Option Int)
    (c : RequestCursor) : Option (List FtxFill × RequestCursor) :=
  match (filterPage fetch start_time c).getLast? with
  | none => none
  | some oldest => some (filterPage fetch start_time c, ⟨oldest.time + 1, oldest.id⟩)

/-- Fuel-indexed run of the unfold: the list of (cursor, filtered page)
pairs produced, or `none` if `fuel` iterations were not enough. The source
loop is an unbounded lazy `unfold`; `runTraceFuel_enough` below shows
`oldest_fill_id + 1` iterations always suffice, so the bounded run is a
faithful model of the whole stream. -/
def runTraceFuel (fetch : RequestCursor → List FtxFill) (start_time : Option Int) :
    Nat → RequestCursor → Option (List (RequestCursor × List FtxFill))
  | 0, _ => none
  | fuel + 1, c =>
    match pageStep fetch start_time c with
    | none => some []
    | some (fills, c2) =>
      (runTraceFuel fetch start_time fuel c2).map (fun tr => (c, fills) :: tr)

/-- The complete trace of the pagination loop: every iteration's cursor
paired with the filtered page it emitted. -/
def runTrace (fetch : RequestCursor → List FtxFill) (start_time : Option Int)
    (c : RequestCursor) : List (RequestCursor × List FtxFill) :=
  (runTraceFuel fetch start_time (c.oldest_fill_id + 1) c).getD []

/-- The filtered pages emitted by the stream, in order. -/
def runPages (fetch : RequestCursor → List FtxFill) (start_time : Option Int)
    (c : RequestCursor) : List (List FtxFill) :=
  (runTrace fetch start_time c).map Prod.snd

/-- The flat sequence of fills the cursor hands to the writer
(`.flat_map(|fills| stream::iter(fills))`). -/
def collectFills (fetch : RequestCursor → List FtxFill) (start_time : Option Int)
    (c : RequestCursor) : List FtxFill :=
  (runPages fetch start_time c).flatten

/-- A CLI date argument (`NaiveDate`), as a day number, converted to the
timestamp of its midnight: `d.and_hms(0, 0, 0)`. -/
def dateToTime (d : Int) : Int := d * 86400

/-- `Utc::now().naive_utc().date().and_hms(0, 0, 0)` — the current instant
truncated to the start of its UTC day. -/
def dayStart (now : Int) : Int := 86400 * (now / 86400)

/-- The run's end boundary (src/main.rs lines 65-68): the explicit `--end`
date's midnight when given, otherwise the default computed from `now`. -/
def endTimeOf (now : Int) (endArg : Option Int) : Int :=
  (endArg.map dateToTime).getD (dayStart now)

/-- The run's optional start boundary: `args.start.map(|d| d.and_hms(0,0,0))`. -/
def startTimeOf (startArg : Option Int) : Option Int := startArg.map dateToTime

/-- Rust's `Option::zip`: `some (a, b)` exactly when both inputs are `some`. -/
def optionZip (a : Option Int) (b : Option Int) : Option (Int × Int) :=
  match a, b with
  | some x, some y => some (x, y)
  | _, _ => none

/-- The argument validation of `main` (src/main.rs lines 45-53):
`args.start.zip(args.end).map(|(start, end)| start >= end).unwrap_or(false)`;
when true the process logs an error and exits with status 1 before any I/O. -/
def rejectsArgs (startArg endArg : Option Int) : Bool :=
  ((optionZip startArg endArg).map (fun p => decide (p.2 ≤ p.1))).getD false

/-- The initial pagination cursor of a run (src/main.rs lines 71-74):
`end_time` is the run's end boundary and `oldest_fill_id` is `u64::MAX`. -/
def initCursor (endTime : Int) : RequestCursor := ⟨endTime, u64Max⟩

/-- The calendar day selecting a fill's output sink. The source computes
`fill.time.date().naive_utc()` on a `DateTime<Local>`; chrono's
`DateTime::date` is `Date::from_utc(self.naive_local().date(), offset)` and
`Date::naive_utc` returns that stored date unchanged, so this is the fill's
calendar date in the *local* timezone: the UTC timestamp shifted by the local
offset, truncated to a day. `offset` is the run's fixed local UTC offset in
seconds. -/
def localDay (offset t : Int) : Int := (t + offset).fdiv 86400

/-- Day-boundary truncation in the timezone the start filter compares in:
the filter uses `f.time.naive_utc()` against a naive boundary, i.e. UTC. -/
def utcDay (t : Int) : Int := t.fdiv 86400

/-- Observable operation on output sinks. The source performs only two:
`new_writer` (`File::create`, which truncates an existing file) and
`serialize`. `closeSink` is in the alphabet so that claims about explicit
close/flush operations can be stated; the source contains no such call. -/
inductive WriterEvent where
  | openSink (date : Int)
  | writeRecord (date : Int) (id : Nat)
  | closeSink (date : Int)
deriving DecidableEq, Repr

/-- State threaded through the writer fold: the `WriterCursor`'s
`target_date` (or `none` before the first fill), the contents of every
date's file (fill ids, in write order), and the trace of sink operations. -/
structure WriterState where
  cursor : Option Int
  files : Int → List Nat
  events : List WriterEvent

/-- Writer state before the first fill: `fold(None, ...)`, no files. -/
def initWriterState : WriterState :=
  { cursor := none, files := fun _ => [], events := [] }

/-- `new_writer` followed by `serialize` (src/main.rs lines 133-143 and
218-238): `File::create` truncates the date's file to empty, then the record
is appended. -/
def openAndWrite (s : WriterState) (d : Int) (fid : Nat) : WriterState :=
  { cursor := some d
    files := fun x => if x = d then [fid] else s.files x
    events := s.events ++ [.openSink d, .writeRecord d fid] }

/-- The body of the writer fold (src/main.rs lines 116-148): compute the
fill's date; reuse the open writer when its `target_date` matches, otherwise
(or when no writer is open yet) open a new writer for the fill's date; then
serialize the fill and store the new `WriterCursor`. -/
def writeStep (offset : Int) (s : WriterState) (fill : FtxFill) : WriterState :=
  let fill_date := localDay offset fill.time
  match s.cursor with
  | some date =>
    if date = fill_date then
      { cursor := some fill_date
        files := fun x => if x = fill_date then s.files x ++ [fill.id] else s.files x
        events := s.events ++ [.writeRecord fill_date fill.id] }
    else
      openAndWrite s fill_date fill.id
  | none => openAndWrite s fill_date fill.id

/-- The whole writer fold over the fill sequence. -/
def writerRun (offset : Int) (fills : List FtxFill) : WriterState :=
  fills.foldl (writeStep offset) initWriterState

/-- The composed pipeline of `main` after argument handling: run the
pagination stream from the initial cursor and fold the writer over the
emitted fills. -/
def mainRun (offset : Int) (fetch : RequestCursor → List FtxFill)
    (start_time : Option Int) (endTime : Int) : WriterState :=
  writerRun offset (collectFills fetch start_time (initCursor endTime))

/-- `main` including the argument validation: `none` models `exit(1)` before
any fetch or write. -/
def ftxMain (now offset : Int) (startArg endArg : Option Int)
    (fetch : RequestCursor → List FtxFill) : Option WriterState :=
  if rejectsArgs startArg endArg then none
  else some (mainRun offset fetch (startTimeOf startArg) (endTimeOf now endArg))

/-- Is an event an explicit close/flush of a sink? -/
def isCloseEvent : WriterEvent → Bool
  | .closeSink _ => true
  | _ => false

/-- Is an event the opening of a sink? -/
def isOpenEvent : WriterEvent → Bool
  | .openSink _ => true
  | _ => false

/-- The three fills of the spec's date-partitioning example, UTC timestamps:
id 1 at 2024-01-01T23:59:59, id 2 at 2024-01-02T00:00:01,
id 3 at 2024-01-01T12:00:00. Day 19723 is 2024-01-01, day 19724 is
2024-01-02. -/
def fillsC3 : List FtxFill :=
  [⟨1, 1704153599⟩, ⟨2, 1704153601⟩, ⟨3, 1704110400⟩]

/-- A fetcher used to witness the deduplication theorem: a constant page
with strictly descending ids. -/
def fetchW1 : RequestCursor → List FtxFill := fun _ => [⟨9, 5⟩, ⟨7, 3⟩]

/-- A fetcher used to witness the interval theorem: it honours the cursor's
exclusive end bound. -/
def fetchW2 : RequestCursor → List FtxFill := fun c =>
  if 9 < c.end_time then [⟨5, 9⟩] else []

/-- A fetcher used to witness the next-cursor theorem: two distinct
single-fill pages, selected by the cursor's id bound. -/
def fetchW4 : RequestCursor → List FtxFill := fun c =>
  if 9 < c.oldest_fill_id then [⟨9, 100⟩] else [⟨3, 50⟩]

/-- First trace entry of the `fetchW4` run from cursor (1000, 1000). -/
def trW4a : RequestCursor × List FtxFill := (⟨1000, 1000⟩, [⟨9, 100⟩])

/-- Second trace entry of the `fetchW4` run from cursor (1000, 1000). -/
def trW4b : RequestCursor × List FtxFill := (⟨101, 9⟩, [⟨3, 50⟩])

/-! ## Helper lemmas about the pagination loop -/

/-- A list's optional last element is one of its members. -/
theorem mem_of_getLast?_eq {α : Type} {l : List α} {x : α}
    (h : l.getLast? = some x) : x ∈ l := by
  obtain ⟨hne, rfl⟩ := List.mem_getLast?_eq_getLast (Option.mem_def.mpr h)
  exact List.getLast_mem hne

/-- Unfolding `keepFill` into its two propositional conjuncts. -/
theorem keepFill_true_iff (st : Option Int) (o : Nat) (f : FtxFill) :
    keepFill st o f = true ↔ f.id < o ∧ ∀ s, st = some s → s ≤ f.time := by
  cases st <;> simp [keepFill]

/-- The recursion equation of the fuelled unfold. -/
theorem runTraceFuel_succ (fetch : RequestCursor → List FtxFill)
    (st : Option Int) (fuel : Nat) (c : RequestCursor) :
    runTraceFuel fetch st (fuel + 1) c =
      match pageStep fetch st c with
      | none => some []
      | some (fills, c2) =>
        (runTraceFuel fetch st fuel c2).map (fun tr => (c, fills) :: tr) := rfl

/-- The fuelled unfold at an exhausted cursor. -/
theorem runTraceFuel_succ_none {fetch : RequestCursor → List FtxFill}
    {st : Option Int} {c : RequestCursor} (fuel : Nat)
    (h : pageStep fetch st c = none) :
    runTraceFuel fetch st (fuel + 1) c = some [] := by
  rw [runTraceFuel_succ, h]

/-- The fuelled unfold at a productive cursor. -/
theorem runTraceFuel_succ_some {fetch : RequestCursor → List FtxFill}
    {st : Option Int} {c : RequestCursor} {p : List FtxFill} {c2 : RequestCursor}
    (fuel : Nat) (h : pageStep fetch st c = some (p, c2)) :
    runTraceFuel fetch st (fuel + 1) c =
      (runTraceFuel fetch st fuel c2).map (fun tr => (c, p) :: tr) := by
  rw [runTraceFuel_succ, h]

/-- `pageStep` signals exhaustion exactly when the filtered page is empty. -/
theorem pageStep_none_iff (fetch : RequestCursor → List FtxFill)
    (st : Option Int) (c : RequestCursor) :
    pageStep fetch st c = none ↔ filterPage fetch st c = [] := by
  unfold pageStep
  rcases h : (filterPage fetch st c).getLast? with _ | oldest
  · simp only [List.getLast?_eq_none_iff.mp h]
  · simp only []
    constructor
    · intro hc; cases hc
    · intro hnil; rw [hnil] at h; cases h

/-- Inversion of a successful `pageStep`: the emitted page is the filtered
page and the next cursor is derived from its last element. -/
theorem pageStep_some_inv {fetch : RequestCursor → List FtxFill}
    {st : Option Int} {c : RequestCursor} {p : List FtxFill} {c2 : RequestCursor}
    (h : pageStep fetch st c = some (p, c2)) :
    p = filterPage fetch st c ∧ ∃ oldest, p.getLast? = some oldest ∧
      c2 = ⟨oldest.time + 1, oldest.id⟩ := by
  unfold pageStep at h
  rcases hl : (filterPage fetch st c).getLast? with _ | oldest <;> rw [hl] at h
  · cases h
  · simp only [Option.some.injEq, Prod.mk.injEq] at h
    obtain ⟨hp, hc⟩ := h
    subst hp
    exact ⟨rfl, oldest, hl, hc.symm⟩

/-- A successful `pageStep` strictly decreases `oldest_fill_id`: the new
value is the id of a fill that passed the `id < oldest_fill_id` filter. -/
theorem pageStep_oldest_lt {fetch : RequestCursor → List FtxFill}
    {st : Option Int} {c : RequestCursor} {p : List FtxFill} {c2 : RequestCursor}
    (h : pageStep fetch st c = some (p, c2)) :
    c2.oldest_fill_id < c.oldest_fill_id := by
  obtain ⟨hp, oldest, hl, hc⟩ := pageStep_some_inv h
  subst hc
  have hm : oldest ∈ p := mem_of_getLast?_eq hl
  rw [hp] at hm
  have hk : keepFill st c.oldest_fill_id oldest = true := List.of_mem_filter hm
  exact ((keepFill_true_iff st c.oldest_fill_id oldest).mp hk).1

/-- `oldest_fill_id + 1` units of fuel always suffice, for any fetcher, and
bound the number of emitted pages. -/
theorem runTraceFuel_enough (fetch : RequestCursor → List FtxFill)
    (st : Option Int) :
    ∀ (fuel : Nat) (c : RequestCursor), c.oldest_fill_id < fuel →
      ∃ tr, runTraceFuel fetch st fuel c = some tr ∧
        tr.length ≤ c.oldest_fill_id + 1 := by
  intro fuel
  induction fuel with
  | zero => intro c hc; exact absurd hc (Nat.not_lt_zero _)
  | succ fuel ih =>
    intro c hc
    rcases hps : pageStep fetch st c with _ | ⟨p, c2⟩
    · exact ⟨[], runTraceFuel_succ_none fuel hps, by simp⟩
    · have hlt : c2.oldest_fill_id < c.oldest_fill_id := pageStep_oldest_lt hps
      obtain ⟨tr, htr, hlen⟩ := ih c2 (by omega)
      refine ⟨(c, p) :: tr, ?_, ?_⟩
      · rw [runTraceFuel_succ_some fuel hps, htr]
        rfl
      · simp only [List.length_cons]
        omega

/-- `runTrace` is the (always defined) value of the fuelled unfold. -/
theorem runTrace_eq_some (fetch : RequestCursor → List FtxFill)
    (st : Option Int) (c : RequestCursor) :
    ∃ tr, runTraceFuel fetch st (c.oldest_fill_id + 1) c = some tr ∧
      runTrace fetch st c = tr := by
  obtain ⟨tr, htr, _⟩ :=
    runTraceFuel_enough fetch st (c.oldest_fill_id + 1) c (by omega)
  exact ⟨tr, htr, by rw [runTrace, htr]; rfl⟩

/-- The first entry of a non-empty trace carries the starting cursor. -/
theorem runTraceFuel_first_cursor {fetch : RequestCursor → List FtxFill}
    {st : Option Int} {fuel : Nat} {c : RequestCursor}
    {e : RequestCursor × List FtxFill} {tr : List (RequestCursor × List FtxFill)}
    (h : runTraceFuel fetch st fuel c = some (e :: tr)) : e.1 = c := by
  cases fuel with
  | zero => cases h
  | succ fuel =>
    rcases hps : pageStep fetch st c with _ | ⟨p, c2⟩
    · rw [runTraceFuel_succ_none fuel hps] at h
      injection h with h1; cases h1
    · rw [runTraceFuel_succ_some fuel hps] at h
      rcases hro : runTraceFuel fetch st fuel c2 with _ | tr2 <;> rw [hro] at h
      · cases h
      · rw [Option.map_some'] at h
        injection h with h1
        injection h1 with h2 h3
        rw [← h2]

/-- Every trace entry's page is the filtered page of its own cursor, and
every fill in it has id strictly below the starting cursor's bound. -/
theorem runTraceFuel_entries {fetch : RequestCursor → List FtxFill}
    {st : Option Int} :
    ∀ {fuel : Nat} {c : RequestCursor} {tr : List (RequestCursor × List FtxFill)},
      runTraceFuel fetch st fuel c = some tr →
      ∀ e ∈ tr, e.2 = filterPage fetch st e.1 ∧
        ∀ f ∈ e.2, f.id < c.oldest_fill_id := by
  intro fuel
  induction fuel with
  | zero => intro c tr h; cases h
  | succ fuel ih =>
    intro c tr h e he
    rcases hps : pageStep fetch st c with _ | ⟨p, c2⟩
    · rw [runTraceFuel_succ_none fuel hps] at h
      injection h with h1; subst h1; cases he
    · rw [runTraceFuel_succ_some fuel hps] at h
      rcases hro : runTraceFuel fetch st fuel c2 with _ | tr2 <;> rw [hro] at h
      · cases h
      · rw [Option.map_some'] at h
        injection h with h1; subst h1
        obtain ⟨hpfp, oldest, hlast, hc2⟩ := pageStep_some_inv hps
        rcases List.mem_cons.mp he with rfl | he
        · refine ⟨hpfp, fun f hf => ?_⟩
          have hm : f ∈ filterPage fetch st c := by rw [← hpfp]; exact hf
          have hk : keepFill st c.oldest_fill_id f = true := List.of_mem_filter hm
          exact ((keepFill_true_iff st c.oldest_fill_id f).mp hk).1
        · obtain ⟨h1, h2⟩ := ih hro e he
          have h4 : c2.oldest_fill_id < c.oldest_fill_id := pageStep_oldest_lt hps
          exact ⟨h1, fun f hf => by have := h2 f hf; omega⟩

/-- All fills anywhere in a trace have id below the starting bound. -/
theorem runTraceFuel_fills_lt {fetch : RequestCursor → List FtxFill}
    {st : Option Int} {fuel : Nat} {c : RequestCursor}
    {tr : List (RequestCursor × List FtxFill)}
    (h : runTraceFuel fetch st fuel c = some tr) :
    ∀ f ∈ (tr.map Prod.snd).flatten, f.id < c.oldest_fill_id := by
  intro f hf
  rcases List.mem_flatten.mp hf with ⟨l, hl, hfl⟩
  rcases List.mem_map.mp hl with ⟨e, he, rfl⟩
  exact (runTraceFuel_entries h e he).2 f hfl

/-- The filtered page of a page-wise strictly id-descending fetcher is
itself strictly id-descending. -/
theorem filterPage_pairwise {fetch : RequestCursor → List FtxFill}
    {st : Option Int} {c : RequestCursor}
    (hdesc : ∀ c2, List.Pairwise (fun (a b : FtxFill) => b.id < a.id) (fetch c2)) :
    List.Pairwise (fun (a b : FtxFill) => b.id < a.id) (filterPage fetch st c) :=
  List.Pairwise.sublist (List.filter_sublist _) (hdesc c)

/-- A strictly id-descending list has pairwise-distinct ids. -/
theorem pairwise_desc_nodup {l : List FtxFill}
    (h : List.Pairwise (fun (a b : FtxFill) => b.id < a.id) l) :
    (l.map FtxFill.id).Nodup := by
  rw [List.Nodup, List.pairwise_map]
  exact h.imp (fun hlt => (Nat.ne_of_lt hlt).symm)

/-- In a strictly id-descending list, the last element's id is minimal. -/
theorem getLast?_id_min :
    ∀ {l : List FtxFill} {x : FtxFill},
      List.Pairwise (fun (a b : FtxFill) => b.id < a.id) l →
      l.getLast? = some x → ∀ f ∈ l, x.id ≤ f.id := by
  intro l
  induction l with
  | nil => intro x _ h; cases h
  | cons a t ih =>
    intro x hp h f hf
    rcases List.mem_cons.mp hf with rfl | hf
    · cases t with
      | nil =>
        rw [List.getLast?_singleton] at h
        injection h with h1
        subst h1
        exact le_refl _
      | cons b t2 =>
        rw [List.getLast?_cons_cons] at h
        have hx : x ∈ b :: t2 := mem_of_getLast?_eq h
        have := (List.pairwise_cons.mp hp).1 x hx
        omega
    · cases t with
      | nil => cases hf
      | cons b t2 =>
        rw [List.getLast?_cons_cons] at h
        exact ih (List.pairwise_cons.mp hp).2 h f hf

/-- For a fetcher whose pages are strictly id-descending, the fills of a
whole trace have pairwise-distinct ids. -/
theorem runTraceFuel_nodup {fetch : RequestCursor → List FtxFill}
    {st : Option Int}
    (hdesc : ∀ c2, List.Pairwise (fun (a b : FtxFill) => b.id < a.id) (fetch c2)) :
    ∀ {fuel : Nat} {c : RequestCursor} {tr : List (RequestCursor × List FtxFill)},
      runTraceFuel fetch st fuel c = some tr →
      ((tr.map Prod.snd).flatten.map FtxFill.id).Nodup := by
  intro fuel
  induction fuel with
  | zero => intro c tr h; cases h
  | succ fuel ih =>
    intro c tr h
    rcases hps : pageStep fetch st c with _ | ⟨p, c2⟩
    · rw [runTraceFuel_succ_none fuel hps] at h
      injection h with h1; subst h1; simp
    · rw [runTraceFuel_succ_some fuel hps] at h
      rcases hro : runTraceFuel fetch st fuel c2 with _ | tr2 <;> rw [hro] at h
      · cases h
      · rw [Option.map_some'] at h
        injection h with h1; subst h1
        obtain ⟨hpfp, oldest, hlast, hc2⟩ := pageStep_some_inv hps
        have hdp : List.Pairwise (fun (a b : FtxFill) => b.id < a.id) p := by
          rw [hpfp]; exact filterPage_pairwise hdesc
        simp only [List.map_cons, List.flatten_cons, List.map_append]
        refine List.Nodup.append (pairwise_desc_nodup hdp) (ih hro) ?_
        intro a ha hb
        rcases List.mem_map.mp ha with ⟨f, hfp, rfl⟩
        rcases List.mem_map.mp hb with ⟨g, hgt, hga⟩
        have h1 : oldest.id ≤ f.id := getLast?_id_min hdp hlast f hfp
        have h2 : g.id < c2.oldest_fill_id := runTraceFuel_fills_lt hro g hgt
        have h3 : g.id < oldest.id := by rw [hc2] at h2; exact h2
        omega

/-- When the fetcher honours the cursor's exclusive end bound, every fill of
a trace has time strictly below the starting cursor's `end_time`. -/
theorem runTraceFuel_time_lt {fetch : RequestCursor → List FtxFill}
    {st : Option Int}
    (hbound : ∀ c2 : RequestCursor, ∀ f ∈ fetch c2, f.time < c2.end_time) :
    ∀ {fuel : Nat} {c : RequestCursor} {tr : List (RequestCursor × List FtxFill)},
      runTraceFuel fetch st fuel c = some tr →
      ∀ f ∈ (tr.map Prod.snd).flatten, f.time < c.end_time := by
  intro fuel
  induction fuel with
  | zero => intro c tr h; cases h
  | succ fuel ih =>
    intro c tr h f hf
    rcases hps : pageStep fetch st c with _ | ⟨p, c2⟩
    · rw [runTraceFuel_succ_none fuel hps] at h
      injection h with h1; subst h1; simp at hf
    · rw [runTraceFuel_succ_some fuel hps] at h
      rcases hro : runTraceFuel fetch st fuel c2 with _ | tr2 <;> rw [hro] at h
      · cases h
      · rw [Option.map_some'] at h
        injection h with h1; subst h1
        obtain ⟨hpfp, oldest, hlast, hc2⟩ := pageStep_some_inv hps
        simp only [List.map_cons, List.flatten_cons, List.mem_append] at hf
        rcases hf with hf | hf
        · have hm : f ∈ fetch c := by
            rw [hpfp] at hf
            exact List.mem_of_mem_filter hf
          exact hbound c f hm
        · have h1 : f.time < c2.end_time := ih hro f hf
          have hom : oldest ∈ fetch c := by
            have hm := mem_of_getLast?_eq hlast
            rw [hpfp] at hm
            exact List.mem_of_mem_filter hm
          have h2 : oldest.time < c.end_time := hbound c oldest hom
          have h3 : f.time < oldest.time + 1 := by rw [hc2] at h1; exact h1
          omega

/-- Any two consecutive entries of a trace over a strictly id-descending
fetcher: the later cursor is derived from the last fill of the earlier
page, and that fill's id is the minimum of everything emitted so far. -/
theorem runTraceFuel_split {fetch : RequestCursor → List FtxFill}
    {st : Option Int}
    (hdesc : ∀ c2, List.Pairwise (fun (a b : FtxFill) => b.id < a.id) (fetch c2)) :
    ∀ {fuel : Nat} {c : RequestCursor}
      {pre : List (RequestCursor × List FtxFill)}
      {e₁ e₂ : RequestCursor × List FtxFill}
      {post tr : List (RequestCursor × List FtxFill)},
      runTraceFuel fetch st fuel c = some tr →
      tr = pre ++ e₁ :: e₂ :: post →
      ∃ oldest, e₁.2.getLast? = some oldest ∧
        e₂.1.end_time = oldest.time + 1 ∧ e₂.1.oldest_fill_id = oldest.id ∧
        ∀ f ∈ (pre.map Prod.snd).flatten ++ e₁.2, oldest.id ≤ f.id := by
  intro fuel
  induction fuel with
  | zero => intro c pre e₁ e₂ post tr h _; cases h
  | succ fuel ih =>
    intro c pre e₁ e₂ post tr h hsp
    subst hsp
    rcases hps : pageStep fetch st c with _ | ⟨p, c2⟩
    · rw [runTraceFuel_succ_none fuel hps] at h
      injection h with h1
      cases pre <;> simp_all
    · rw [runTraceFuel_succ_some fuel hps] at h
      rcases hro : runTraceFuel fetch st fuel c2 with _ | tr2 <;> rw [hro] at h
      · cases h
      · rw [Option.map_some'] at h
        injection h with h1
        obtain ⟨hpfp, oldest0, hlast, hc2⟩ := pageStep_some_inv hps
        have hdp : List.Pairwise (fun (a b : FtxFill) => b.id < a.id) p := by
          rw [hpfp]; exact filterPage_pairwise hdesc
        cases pre with
        | nil =>
          simp only [List.nil_append] at h1
          injection h1 with h2 h3
          have he2 : e₂.1 = c2 := runTraceFuel_first_cursor (h3 ▸ hro)
          refine ⟨oldest0, ?_, ?_, ?_, ?_⟩
          · rw [← h2]; exact hlast
          · rw [he2, hc2]
          · rw [he2, hc2]
          · intro f hf
            simp only [List.map_nil, List.flatten_nil, List.nil_append] at hf
            rw [← h2] at hf
            exact getLast?_id_min hdp hlast f hf
        | cons q pre2 =>
          simp only [List.cons_append] at h1
          injection h1 with h2 h3
          obtain ⟨oldest, hl1, hend, hoid, hmin⟩ := ih hro h3
          refine ⟨oldest, hl1, hend, hoid, ?_⟩
          intro f hf
          rw [← h2] at hf
          simp only [List.map_cons, List.flatten_cons, List.mem_append] at hf
          rcases hf with (hf | hf) | hf
          · have ho : oldest ∈ e₁.2 := mem_of_getLast?_eq hl1
            have he₁ : e₁ ∈ tr2 := by rw [h3]; simp
            have h4 : oldest.id < c2.oldest_fill_id :=
              (runTraceFuel_entries hro e₁ he₁).2 oldest ho
            have h5 : oldest.id < oldest0.id := by rw [hc2] at h4; exact h4
            have h6 : oldest0.id ≤ f.id := getLast?_id_min hdp hlast f hf
            omega
          · exact hmin f (List.mem_append.mpr (Or.inl hf))
          · exact hmin f (List.mem_append.mpr (Or.inr hf))

/-- Every emitted fill lies in some cursor's filtered page. -/
theorem collectFills_mem_inv {fetch : RequestCursor → List FtxFill}
    {st : Option Int} {c : RequestCursor} {f : FtxFill}
    (hf : f ∈ collectFills fetch st c) :
    ∃ c2 : RequestCursor, f ∈ filterPage fetch st c2 := by
  obtain ⟨tr, htr, hrt⟩ := runTrace_eq_some fetch st c
  rw [collectFills, runPages, hrt] at hf
  rcases List.mem_flatten.mp hf with ⟨l, hl, hfl⟩
  rcases List.mem_map.mp hl with ⟨e, he, rfl⟩
  refine ⟨e.1, ?_⟩
  rw [← (runTraceFuel_entries htr e he).1]
  exact hfl

/-- With a start boundary set, every emitted fill's time is at or after it. -/
theorem collectFills_start_le {fetch : RequestCursor → List FtxFill}
    {s : Int} {c : RequestCursor} {f : FtxFill}
    (hf : f ∈ collectFills fetch (some s) c) : s ≤ f.time := by
  obtain ⟨c2, hc2⟩ := collectFills_mem_inv hf
  have hk : keepFill (some s) c2.oldest_fill_id f = true := List.of_mem_filter hc2
  exact ((keepFill_true_iff (some s) c2.oldest_fill_id f).mp hk).2 s rfl

/-- With an end-respecting fetcher, every emitted fill's time is strictly
below the starting cursor's `end_time`. -/
theorem collectFills_time_lt {fetch : RequestCursor → List FtxFill}
    {st : Option Int} {c : RequestCursor}
    (hbound : ∀ c2 : RequestCursor, ∀ f ∈ fetch c2, f.time < c2.end_time) :
    ∀ f ∈ collectFills fetch st c, f.time < c.end_time := by
  intro f hf
  obtain ⟨tr, htr, hrt⟩ := runTrace_eq_some fetch st c
  rw [collectFills, runPages, hrt] at hf
  exact runTraceFuel_time_lt hbound htr f hf

/-- A fetcher that always returns an empty page never yields any fill. -/
theorem collectFills_empty_fetcher (st : Option Int) (c : RequestCursor) :
    collectFills (fun _ => ([] : List FtxFill)) st c = [] := by
  have hps0 : pageStep (fun _ => ([] : List FtxFill)) st c = none := by
    rw [pageStep_none_iff]
    rfl
  obtain ⟨tr, htr, hrt⟩ := runTrace_eq_some (fun _ => ([] : List FtxFill)) st c
  rw [runTraceFuel_succ_none _ hps0] at htr
  injection htr with h1
  rw [collectFills, runPages, hrt, ← h1]
  rfl

/-! ## Helper lemmas about the writer -/

/-- One writer step appends only open and write events, never a close. -/
theorem writeStep_close_free (offset : Int) (s : WriterState) (f : FtxFill)
    (h : s.events.any isCloseEvent = false) :
    (writeStep offset s f).events.any isCloseEvent = false := by
  unfold writeStep
  rcases hc : s.cursor with _ | d
  · simp [openAndWrite, List.any_append, h, isCloseEvent]
  · dsimp only
    split
    · simp [List.any_append, h, isCloseEvent]
    · simp [openAndWrite, List.any_append, h, isCloseEvent]

/-- The writer fold preserves close-freedom of the event trace. -/
theorem writerRun_aux_close_free (offset : Int) :
    ∀ (fills : List FtxFill) (s : WriterState),
      s.events.any isCloseEvent = false →
      ((fills.foldl (writeStep offset) s).events.any isCloseEvent) = false := by
  intro fills
  induction fills with
  | nil => intro s h; simpa using h
  | cons f t ih =>
    intro s h
    rw [List.foldl_cons]
    exact ih _ (writeStep_close_free offset s f h)

/-! ## Witness collaborators: hypothesis facts -/

/-- `fetchW1` returns strictly id-descending pages. -/
theorem fetchW1_desc : ∀ c2 : RequestCursor,
    List.Pairwise (fun (a b : FtxFill) => b.id < a.id) (fetchW1 c2) := by
  intro c2
  unfold fetchW1
  decide

/-- `fetchW2` honours the cursor's exclusive end bound. -/
theorem fetchW2_bounded :
    ∀ c2 : RequestCursor, ∀ f ∈ fetchW2 c2, f.time < c2.end_time := by
  intro c2 f hf
  unfold fetchW2 at hf
  split at hf
  next h =>
    rw [List.mem_singleton] at hf
    subst hf
    exact h
  next => cases hf

/-- `fetchW4` returns strictly id-descending pages. -/
theorem fetchW4_desc : ∀ c2 : RequestCursor,
    List.Pairwise (fun (a b : FtxFill) => b.id < a.id) (fetchW4 c2) := by
  intro c2
  unfold fetchW4
  split <;> decide

/-! ## Claim theorems -/

/-- Claim C1: for every run and every fetcher whose pages are newest-first
with ids monotone in time (modelled as: every page strictly descending in
id), the emitted fill sequence contains no two records with equal id. -/
theorem c1_no_duplicate_ids (fetch : RequestCursor → List FtxFill)
    (st : Option Int) (c : RequestCursor)
    (hdesc : ∀ c2, List.Pairwise (fun (a b : FtxFill) => b.id < a.id) (fetch c2)) :
    ((collectFills fetch st c).map FtxFill.id).Nodup := by
  obtain ⟨tr, htr, hrt⟩ := runTrace_eq_some fetch st c
  rw [collectFills, runPages, hrt]
  exact runTraceFuel_nodup hdesc htr

/-- Witness for C1 at a concrete descending fetcher and cursor. -/
theorem c1_no_duplicate_ids_witness :
    ((collectFills fetchW1 none ⟨100, 100⟩).map FtxFill.id).Nodup :=
  c1_no_duplicate_ids fetchW1 none ⟨100, 100⟩ fetchW1_desc

/-- Claim C2: with an inclusive start boundary `s` and exclusive end
boundary `E`, and a fetcher returning only fills strictly below the
requested exclusive end, every emitted fill's time lies in `[s, E)`. -/
theorem c2_half_open_interval (fetch : RequestCursor → List FtxFill) (s E : Int)
    (hbound : ∀ c2 : RequestCursor, ∀ f ∈ fetch c2, f.time < c2.end_time) :
    ∀ f ∈ collectFills fetch (some s) (initCursor E), s ≤ f.time ∧ f.time < E := by
  intro f hf
  exact ⟨collectFills_start_le hf, collectFills_time_lt hbound f hf⟩

/-- Witness for C2: the fill emitted by the `fetchW2` run lies in [0, 100). -/
theorem c2_half_open_interval_witness :
    (0 : Int) ≤ (FtxFill.mk 5 9).time ∧ (FtxFill.mk 5 9).time < 100 :=
  c2_half_open_interval fetchW2 0 100 fetchW2_bounded ⟨5, 9⟩ (by decide)

/-- Claim C3 counterexample: on the spec's three-fill example the final
2024-01-01 file (day 19723) holds only id 3 — id 1 is not in it, so the
claimed content {1, 3} is wrong: reopening the day's file via
`File::create` truncated it. -/
theorem c3_counterexample :
    (writerRun 0 fillsC3).files 19723 = [3] ∧
    1 ∉ (writerRun 0 fillsC3).files 19723 := by decide

/-- Claim C3 (amended): the writer opens a sink three times over exactly two
distinct dates (19723, 19724, 19723), each record is written to exactly one
sink open chosen by its calendar date, and since each open truncates, the
final 2024-01-01 file holds only id 3 while the 2024-01-02 file holds id 2. -/
theorem c3_two_dates_last_writer :
    (writerRun 0 fillsC3).files 19723 = [3] ∧
    (writerRun 0 fillsC3).files 19724 = [2] ∧
    (writerRun 0 fillsC3).events =
      [.openSink 19723, .writeRecord 19723 1, .openSink 19724,
       .writeRecord 19724 2, .openSink 19723, .writeRecord 19723 3] ∧
    localDay 0 1704153599 = 19723 ∧ localDay 0 1704110400 = 19723 ∧
    localDay 0 1704153601 = 19724 := by decide

/-- Claim C4: over a strictly id-descending fetcher, whenever the trace has
two consecutive entries, the later cursor's `end_time` is the earlier
filtered page's oldest (last) fill's time plus one second, its
`oldest_fill_id` is that fill's id, and that id is the minimum over all
fills emitted so far. -/
theorem c4_next_cursor_from_oldest (fetch : RequestCursor → List FtxFill)
    (st : Option Int) (c : RequestCursor)
    (hdesc : ∀ c2, List.Pairwise (fun (a b : FtxFill) => b.id < a.id) (fetch c2))
    (pre post : List (RequestCursor × List FtxFill))
    (e₁ e₂ : RequestCursor × List FtxFill)
    (hsplit : runTrace fetch st c = pre ++ e₁ :: e₂ :: post) :
    ∃ oldest, e₁.2.getLast? = some oldest ∧
      e₂.1.end_time = oldest.time + 1 ∧ e₂.1.oldest_fill_id = oldest.id ∧
      ∀ f ∈ (pre.map Prod.snd).flatten ++ e₁.2, oldest.id ≤ f.id := by
  obtain ⟨tr, htr, hrt⟩ := runTrace_eq_some fetch st c
  rw [hrt] at hsplit
  exact runTraceFuel_split hdesc htr hsplit

/-- Witness for C4 on the two-page `fetchW4` run. -/
theorem c4_next_cursor_from_oldest_witness :
    ∃ oldest, trW4a.2.getLast? = some oldest ∧
      trW4b.1.end_time = oldest.time + 1 ∧ trW4b.1.oldest_fill_id = oldest.id ∧
      ∀ f ∈ (([] : List (RequestCursor × List FtxFill)).map Prod.snd).flatten
          ++ trW4a.2, oldest.id ≤ f.id :=
  c4_next_cursor_from_oldest fetchW4 none ⟨1000, 1000⟩ fetchW4_desc [] []
    trW4a trW4b (by decide)

/-- Claim C5 counterexample: a run with one fill opens a sink but its event
trace contains no close/flush at all — the sink is not explicitly
flushed/closed before the process ends. -/
theorem c5_counterexample :
    (writerRun 0 [⟨1, 0⟩]).events.any isOpenEvent = true ∧
    (writerRun 0 [⟨1, 0⟩]).events.any isCloseEvent = false := by decide

/-- Claim C5 (amended): the writer never issues an explicit close/flush on
any path — a replaced sink is simply dropped when the date changes, and the
last sink is dropped at end of run; the event trace of every run is
close-free. -/
theorem c5_no_explicit_close (offset : Int) (fills : List FtxFill) :
    (writerRun offset fills).events.any isCloseEvent = false :=
  writerRun_aux_close_free offset fills initWriterState rfl

/-- Claim C6 counterexample: with `now` 100 seconds past midnight, the
default end boundary is 0, not `now` — the code truncates to the start of
the current UTC day instead of using the current time. -/
theorem c6_counterexample : endTimeOf 100 none ≠ 100 := by decide

/-- Claim C6 (amended): when no explicit end date is given the end boundary
defaults to midnight UTC of the current day (`now` truncated to its day
boundary), and the first fetched page's cursor carries exactly that value
as its exclusive upper bound. -/
theorem c6_default_end_day_start (now : Int) (fetch : RequestCursor → List FtxFill)
    (st : Option Int) (entry : RequestCursor × List FtxFill)
    (hhead : (runTrace fetch st (initCursor (endTimeOf now none))).head? = some entry) :
    endTimeOf now none = 86400 * (now / 86400) ∧
    entry.1.end_time = 86400 * (now / 86400) := by
  refine ⟨rfl, ?_⟩
  obtain ⟨tr, htr, hrt⟩ := runTrace_eq_some fetch st (initCursor (endTimeOf now none))
  rw [hrt] at hhead
  cases tr with
  | nil => cases hhead
  | cons e rest =>
    rw [List.head?_cons] at hhead
    injection hhead with h1
    subst h1
    rw [runTraceFuel_first_cursor htr]
    rfl

/-- Witness for C6 (amended) at `now = 100` with the `fetchW1` fetcher. -/
theorem c6_default_end_day_start_witness :
    endTimeOf 100 none = 86400 * ((100 : Int) / 86400) ∧
    ((⟨0, u64Max⟩, [⟨9, 5⟩, ⟨7, 3⟩]) : RequestCursor × List FtxFill).1.end_time =
      86400 * ((100 : Int) / 86400) :=
  c6_default_end_day_start 100 fetchW1 none (⟨0, u64Max⟩, [⟨9, 5⟩, ⟨7, 3⟩])
    (by decide)

/-- Claim C7 counterexample: with local offset +9h (32400 s), the fill at
UTC 20:00 of day 0 is assigned sink day 1 while the timezone used by the
start-boundary filter (UTC) puts it on day 0 — the partition date is not
computed in the timezone the filter compares in. -/
theorem c7_counterexample : localDay 32400 72000 ≠ utcDay 72000 := by decide

/-- Claim C7 (amended): the sink-selecting date is the fill's local-timezone
day while the start filter compares raw naive-UTC times; the two agree for
every timestamp exactly when the local offset is zero. -/
theorem c7_timezone_consistency_iff (offset : Int) :
    ((∀ t : Int, localDay offset t = utcDay t) ↔ offset = 0) ∧
    (∀ (s : Int) (o : Nat) (f : FtxFill),
      keepFill (some s) o f = true ↔ f.id < o ∧ s ≤ f.time) := by
  have hconv : ∀ a : Int, a.fdiv 86400 = a / 86400 := fun a =>
    Int.fdiv_eq_ediv a (by norm_num)
  constructor
  · constructor
    · intro h
      have h0 := h 0
      have h1 := h (86400 - offset)
      unfold localDay utcDay at h0 h1
      rw [hconv, hconv] at h0
      rw [hconv, hconv] at h1
      omega
    · rintro rfl t
      unfold localDay utcDay
      rw [add_zero]
  · intro s o f
    rw [keepFill_true_iff]
    constructor
    · rintro ⟨h1, h2⟩
      exact ⟨h1, h2 s rfl⟩
    · rintro ⟨h1, h2⟩
      refine ⟨h1, fun s2 hs2 => ?_⟩
      injection hs2 with h3
      rw [← h3]
      exact h2

/-- Claim C8: the stream terminates exactly when the filtered page is empty
(whether the raw page was empty or fully filtered out), and a fetcher whose
first page is empty yields an empty fill sequence and zero sink events. -/
theorem c8_exhaustion (fetch : RequestCursor → List FtxFill) (st : Option Int)
    (c : RequestCursor) (offset endT : Int) :
    (runTrace fetch st c = [] ↔ filterPage fetch st c = []) ∧
    collectFills (fun _ => ([] : List FtxFill)) st c = [] ∧
    (mainRun offset (fun _ => ([] : List FtxFill)) st endT).events = [] := by
  refine ⟨?_, collectFills_empty_fetcher st c, ?_⟩
  · obtain ⟨tr, htr, hrt⟩ := runTrace_eq_some fetch st c
    rw [hrt]
    have key : tr = [] ↔ pageStep fetch st c = none := by
      rcases hps : pageStep fetch st c with _ | ⟨p, c2⟩
      · rw [runTraceFuel_succ_none _ hps] at htr
        injection htr with h1
        subst h1
        simp [hps]
      · rw [runTraceFuel_succ_some _ hps] at htr
        rcases hro : runTraceFuel fetch st c.oldest_fill_id c2 with _ | tr2 <;>
          rw [hro] at htr
        · cases htr
        · rw [Option.map_some'] at htr
          injection htr with h1
          subst h1
          simp [hps]
    rw [key, pageStep_none_iff]
  · rw [mainRun, collectFills_empty_fetcher]
    rfl

/-- Claim C9 counterexample: with `--start` day 1 given, no explicit end,
and `now` at timestamp 86400 (so the defaulted end boundary equals the
start boundary), the configuration is *not* rejected — validation only
fires when both boundaries are explicit — and the run proceeds. -/
theorem c9_counterexample :
    rejectsArgs (some 1) none = false ∧
    endTimeOf 86400 none ≤ dateToTime 1 ∧
    (ftxMain 86400 0 (some 1) none (fun _ => [])).isSome = true := by decide

/-- Claim C9 (amended): the configuration is rejected (exit before any
fetch) exactly when both start and end are explicitly given and start is at
or after end; a rejected configuration performs no fetch and no write. -/
theorem c9_validation_iff (startArg endArg : Option Int) :
    (rejectsArgs startArg endArg = true ↔
      ∃ s e, startArg = some s ∧ endArg = some e ∧ e ≤ s) ∧
    ∀ (now offset : Int) (fetch : RequestCursor → List FtxFill),
      rejectsArgs startArg endArg = true →
      ftxMain now offset startArg endArg fetch = none := by
  constructor
  · rcases startArg with _ | s <;> rcases endArg with _ | e <;>
      simp [rejectsArgs, optionZip]
  · intro now offset fetch h
    simp [ftxMain, h]

/-- Witness for C9 (amended): start day 2, end day 1 is rejected and runs
nothing. -/
theorem c9_validation_iff_witness :
    rejectsArgs (some 2) (some 1) = true ∧
    ftxMain 0 0 (some 2) (some 1) (fun _ => []) = none := by
  constructor
  · exact (c9_validation_iff (some 2) (some 1)).1.mpr ⟨2, 1, rfl, rfl, by decide⟩
  · exact (c9_validation_iff (some 2) (some 1)).2 0 0 (fun _ => []) (by decide)

/-- Claim C10: for every fetcher, the pagination loop performs only
finitely many iterations: each successful page strictly decreases
`oldest_fill_id`, so `oldest_fill_id + 1` iterations always complete the
stream and bound the number of emitted pages. -/
theorem c10_pagination_terminates (fetch : RequestCursor → List FtxFill)
    (st : Option Int) (c : RequestCursor) (fuel : Nat)
    (hfuel : c.oldest_fill_id < fuel) :
    (∀ (p : List FtxFill) (c2 : RequestCursor),
      pageStep fetch st c = some (p, c2) →
      c2.oldest_fill_id < c.oldest_fill_id) ∧
    ∃ tr, runTraceFuel fetch st fuel c = some tr ∧
      tr.length ≤ c.oldest_fill_id + 1 :=
  ⟨fun _ _ h => pageStep_oldest_lt h, runTraceFuel_enough fetch st fuel c hfuel⟩

/-- Witness for C10 at a concrete fetcher, cursor and fuel. -/
theorem c10_pagination_terminates_witness :
    (∀ (p : List FtxFill) (c2 : RequestCursor),
      pageStep fetchW1 none ⟨100, 100⟩ = some (p, c2) →
      c2.oldest_fill_id < (RequestCursor.mk 100 100).oldest_fill_id) ∧
    ∃ tr, runTraceFuel fetchW1 none 101 ⟨100, 100⟩ = some tr ∧
      tr.length ≤ (RequestCursor.mk 100 100).oldest_fill_id + 1 :=
  c10_pagination_terminates fetchW1 none ⟨100, 100⟩ 101 (by decide)

end FtxCollector
